import Mathlib

/-!
Verification of the affiliation-classification and record-aggregation
pipeline of the pub-med-paper-fetcher repository.

The embedding models strings as `List Char` (`Str`).  Python string
operations used by the source are translated explicitly:
`s.lower()` as a character-wise `Char.toLower` map, `kw in s` as
substring containment, `s.strip()` as dropping leading and trailing
whitespace, `s[:50]` as `List.take 50`, `s.split(",")[0]` as the longest
prefix without a comma, and `s.split()` (whitespace split) via
`firstToken`.

Sources embedded:
  * `src/pubmed_api.py`:  `PubMedAPI.is_non_academic_affiliation`,
    `PubMedAPI._extract_company_name`.
  * `src/paper_processor.py`:  `PaperProcessor._format_author_name`,
    `PaperProcessor._extract_publication_date`,
    `PaperProcessor._process_single_paper`,
    `PaperProcessor.process_papers`, `PaperProcessor.generate_csv`.

External collaborators (the Entrez network client: `search_papers`,
`fetch_paper_details`, and the regex email scan
`extract_corresponding_email`, which inspects the raw textual
representation of the fetched record) are modelled as function
parameters, mirroring the dependency injection of `PaperProcessor`,
whose constructor receives the `PubMedAPI` instance.  A fetch that
returns the empty dict is modelled as `none`.
-/

namespace PubMedFetcher

/-- Strings are modelled as lists of characters. -/
abbrev Str := List Char

/-- Python `s.lower()`: character-wise lowering. -/
def lowerStr (s : Str) : Str := s.map Char.toLower

/-- Python `needle in hay`: substring containment. -/
def containsSub (hay needle : Str) : Bool :=
  hay.tails.any (fun t => needle.isPrefixOf t)

/-- Python `s.strip()`: remove leading and trailing whitespace. -/
def stripStr (s : Str) : Str :=
  ((s.dropWhile Char.isWhitespace).reverse.dropWhile Char.isWhitespace).reverse

/-- Python `s.split(",")[0]`: the longest prefix containing no comma. -/
def beforeFirstComma (s : Str) : Str :=
  s.takeWhile (fun c => c ≠ ',')

/-- Python `s.split()[0]` guarded against the IndexError on an
all-whitespace string: `none` when `s.split()` is empty. -/
def firstToken (s : Str) : Option Str :=
  let rest := s.dropWhile Char.isWhitespace
  if rest.isEmpty then none
  else some (rest.takeWhile (fun c => !c.isWhitespace))

/-- The fixed academic keyword list of
`PubMedAPI.is_non_academic_affiliation` (src/pubmed_api.py:127-132). -/
def academic_keywords : List Str :=
  ["university", "college", "institute", "school", "academy",
   "hospital", "clinic", "medical center", "health center",
   "laboratory", "national", "federal", "ministry", "department of",
   "center for", "research center", "foundation", "association"
  ].map String.toList

/-- The fixed corporate keyword list of
`PubMedAPI.is_non_academic_affiliation` (src/pubmed_api.py:135-139). -/
def company_keywords : List Str :=
  ["pharma", "biotech", "therapeutics", "biosciences", "inc", "llc",
   "ltd", "limited", "corp", "corporation", "co.", "company", "gmbh",
   "laboratories", "labs", "biopharma", "pharmaceuticals"
  ].map String.toList

/-- Embedding of `PubMedAPI._extract_company_name` (src/pubmed_api.py:163-180):
before the first comma, trimmed, if its length is strictly between
3 and 50; otherwise the first 50 characters, trimmed. -/
def extract_company_name (affiliation : Str) : Str :=
  if affiliation.contains ',' then
    let potential_company := stripStr (beforeFirstComma affiliation)
    if 3 < potential_company.length ∧ potential_company.length < 50 then
      potential_company
    else
      stripStr (affiliation.take 50)
  else
    stripStr (affiliation.take 50)

/-- The `for keyword in company_keywords` loop of
`PubMedAPI.is_non_academic_affiliation` (src/pubmed_api.py:145-152):
at the first corporate keyword contained in the lowered affiliation,
check for academic keywords; when none are present return the corporate
verdict with the extracted company name, otherwise keep scanning
(the academic check does not depend on the keyword, so later iterations
fail the same way and the loop falls through). -/
def companyKeywordLoop (affiliation affiliation_lower : Str) :
    List Str → Option (Bool × Option Str)
  | [] => none
  | keyword :: rest =>
    if containsSub affiliation_lower keyword then
      let is_academic :=
        academic_keywords.any (fun kw => containsSub affiliation_lower kw)
      if !is_academic then
        some (true, some (extract_company_name affiliation))
      else
        companyKeywordLoop affiliation affiliation_lower rest
    else
      companyKeywordLoop affiliation affiliation_lower rest

/-- Embedding of `PubMedAPI.is_non_academic_affiliation` (src/pubmed_api.py:116-161):
Pass A is the corporate-keyword loop; Pass B (src/pubmed_api.py:154-159)
declares the affiliation corporate when no academic keyword occurs and
the string contains a comma; otherwise `(False, None)`. -/
def is_non_academic_affiliation (affiliation : Str) : Bool × Option Str :=
  let affiliation_lower := lowerStr affiliation
  match companyKeywordLoop affiliation affiliation_lower company_keywords with
  | some result => result
  | none =>
    if !(academic_keywords.any (fun kw => containsSub affiliation_lower kw)) then
      if affiliation.contains ',' then
        (true, some (extract_company_name affiliation))
      else
        (false, none)
    else
      (false, none)

/-! ## Record schema

The nested dictionary shape of a fetched PubMed record, restricted to the
keys the processor reads.  A missing key is `none`; the chain
`paper_data.get("MedlineCitation", {}).get("Article", {})` followed by the
`if not article_data` falsiness check is modelled by `article : Option Article`
(`none` covers a missing `MedlineCitation`, a missing `Article` and an empty
`Article` dict). -/

/-- The `PubDate` dict under `Journal.JournalIssue` (optional keys
`Year`, `Month`, `Day`, `MedlineDate`). -/
structure PubDate where
  year : Option Str
  month : Option Str
  day : Option Str
  medlineDate : Option Str
deriving DecidableEq

/-- The `JournalIssue` dict (optional key `PubDate`). -/
structure JournalIssue where
  pubDate : Option PubDate
deriving DecidableEq

/-- The `Journal` dict (optional key `JournalIssue`). -/
structure Journal where
  journalIssue : Option JournalIssue
deriving DecidableEq

/-- One entry of an author's `AffiliationInfo` list; the `Affiliation`
key is read with `affiliation_info.get("Affiliation", "")`. -/
structure AffiliationInfo where
  affiliation : Option Str
deriving DecidableEq

/-- One entry of `AuthorList`. -/
structure Author where
  lastName : Option Str
  foreName : Option Str
  initials : Option Str
  collectiveName : Option Str
  affiliationInfo : Option (List AffiliationInfo)
deriving DecidableEq

/-- The `Article` dict under `MedlineCitation`. -/
structure Article where
  articleTitle : Option Str
  journal : Option Journal
  authorList : Option (List Author)
deriving DecidableEq

/-- A fetched record, as consumed by `_process_single_paper`. -/
structure PaperRecord where
  article : Option Article
deriving DecidableEq

/-- The processed-paper dict built by `_process_single_paper`
(src/paper_processor.py:117-124): all six values are strings (the two
multi-value fields are already joined with "; "). -/
structure Paper where
  pubmedID : Str
  title : Str
  publicationDate : Str
  non_academic_authors : Str
  company_affiliations : Str
  corresponding_email : Str
deriving DecidableEq

/-- Embedding of `PaperProcessor._format_author_name` (src/paper_processor.py:132-151):
fixed precedence last+fore, last+initials, last, collective,
"Unknown Author". -/
def format_author_name (author : Author) : Str :=
  match author.lastName, author.foreName with
  | some last_name, some fore_name => last_name ++ [' '] ++ fore_name
  | some last_name, none =>
    match author.initials with
    | some ini => last_name ++ [' '] ++ ini
    | none => last_name
  | none, _ =>
    match author.collectiveName with
    | some collective => collective
    | none => "Unknown Author".toList

/-- Embedding of `PaperProcessor._extract_publication_date` (src/paper_processor.py:153-187):
precedence Year+Month+Day, Year+Month, Year, MedlineDate first token;
anything else — including the IndexError on an all-whitespace
`MedlineDate`, caught by the local `except` — yields "Unknown". -/
def extract_publication_date (article_data : Article) : Str :=
  match (article_data.journal.bind Journal.journalIssue).bind JournalIssue.pubDate with
  | none => "Unknown".toList
  | some pub_date =>
    match pub_date.year, pub_date.month, pub_date.day with
    | some y, some m, some d => y ++ ['-'] ++ m ++ ['-'] ++ d
    | some y, some m, none => y ++ ['-'] ++ m
    | some y, _, _ => y
    | none, _, _ =>
      match pub_date.medlineDate with
      | some ml =>
        match firstToken ml with
        | some tok => tok
        | none => "Unknown".toList
      | none => "Unknown".toList

/-- The inner affiliation loop of `_process_single_paper`
(src/paper_processor.py:105-113): for each affiliation of one author,
classify it; when the verdict is corporate and the company name is truthy
(a non-empty string), append the author name to `non_academic_authors`
and the company name, if new, to `company_affiliations`. -/
def processAffiliations (author_name : Str) (affs : List AffiliationInfo)
    (acc : List Str × List Str) : List Str × List Str :=
  affs.foldl (fun acc affiliation_info =>
    let affiliation := affiliation_info.affiliation.getD []
    let verdict := is_non_academic_affiliation affiliation
    let is_non_academic := verdict.1
    let company_name := verdict.2
    if is_non_academic ∧ company_name.getD [] ≠ [] then
      (acc.1 ++ [author_name],
       if acc.2.contains (company_name.getD []) then acc.2
       else acc.2 ++ [company_name.getD []])
    else acc) acc

/-- The author loop of `_process_single_paper`
(src/paper_processor.py:100-113) over an explicit accumulator pair
(the two list variables initialised at src/paper_processor.py:97-98);
an author without an `AffiliationInfo` key contributes nothing. -/
def processAuthorsLoop (authors : List Author)
    (acc : List Str × List Str) : List Str × List Str :=
  authors.foldl (fun acc author =>
    let author_name := format_author_name author
    match author.affiliationInfo with
    | none => acc
    | some affs => processAffiliations author_name affs acc) acc

/-- The author loop started on the two empty accumulator lists. -/
def processAuthors (authors : List Author) : List Str × List Str :=
  processAuthorsLoop authors ([], [])

/-- Python `"; ".join(l)`. -/
def joinSemicolon : List Str → Str
  | [] => []
  | [x] => x
  | x :: rest => x ++ "; ".toList ++ joinSemicolon rest

/-- Python `set(l)`, made deterministic as first-occurrence deduplication.
CPython iterates a set in an unspecified order; every claim below is
insensitive to the order, so insertion order is fixed here. -/
def dedupStr (l : List Str) : List Str :=
  (l.foldl (fun acc x => if acc.contains x then acc else acc ++ [x]) [])

/-- Embedding of `PaperProcessor._process_single_paper` (src/paper_processor.py:68-130).
`emailOf` is the collaborator call `self.api.extract_corresponding_email`
(a regex scan over the raw record text, external to the aggregation
logic).  Returns `none` when the article body is missing or when no
author qualifies; the Python `corresponding_email or "Not available"`
truthiness is modelled exactly (an empty-string email also falls back). -/
def process_single_paper (emailOf : PaperRecord → Option Str)
    (pmid : Str) (paper_data : PaperRecord) : Option Paper :=
  match paper_data.article with
  | none => none
  | some article_data =>
    let title := article_data.articleTitle.getD "Unknown Title".toList
    let pub_date := extract_publication_date article_data
    let corresponding_email := emailOf paper_data
    let acc :=
      match article_data.authorList with
      | none => ([], [])
      | some authors => processAuthors authors
    let non_academic_authors := acc.1
    let company_affiliations := acc.2
    if non_academic_authors ≠ [] then
      some
        { pubmedID := pmid
          title := title
          publicationDate := pub_date
          non_academic_authors := joinSemicolon (dedupStr non_academic_authors)
          company_affiliations := joinSemicolon (dedupStr company_affiliations)
          corresponding_email :=
            match corresponding_email with
            | some e => if e ≠ [] then e else "Not available".toList
            | none => "Not available".toList }
    else none

/-- Embedding of `PaperProcessor.process_papers` (src/paper_processor.py:37-66),
parameterised over the external collaborators: `fetch` is
`self.api.fetch_paper_details` with the empty-dict failure result as
`none`, and `pmids` is the identifier list returned by
`self.api.search_papers`.  A falsy fetch result is skipped; a processed
paper is kept when it exists and its `non_academic_authors` string is
truthy. -/
def process_papers (emailOf : PaperRecord → Option Str)
    (fetch : Str → Option PaperRecord) (pmids : List Str) : List Paper :=
  pmids.foldl (fun processed_papers pmid =>
    match fetch pmid with
    | none => processed_papers
    | some paper_data =>
      match process_single_paper emailOf pmid paper_data with
      | some processed_paper =>
        if processed_paper.non_academic_authors ≠ [] then
          processed_papers ++ [processed_paper]
        else processed_papers
      | none => processed_papers) []

/-! ## CSV serialization (`PaperProcessor.generate_csv`,
src/paper_processor.py:189-228), with the `csv.DictWriter` defaults:
delimiter ",", quote char the double quote, minimal quoting, record
terminator CRLF. -/

/-- A field needs quoting when it contains the delimiter, the quote
character, or a CR/LF character. -/
def needsQuoting (field : Str) : Bool :=
  field.any (fun c => c == ',' || c == '\"' || c == '\r' || c == '\n')

/-- Double every quote character. -/
def escapeQuotes : Str → Str
  | [] => []
  | c :: rest =>
    if c == '\"' then '\"' :: '\"' :: escapeQuotes rest
    else c :: escapeQuotes rest

/-- Render one field with minimal quoting. -/
def csvField (field : Str) : Str :=
  if needsQuoting field then '\"' :: (escapeQuotes field ++ ['\"'])
  else field

/-- Render one CSV record: comma-joined fields plus CRLF. -/
def csvRow (fields : List Str) : Str :=
  List.intercalate [','] (fields.map csvField) ++ ['\r', '\n']

/-- The fixed column labels of `generate_csv`
(src/paper_processor.py:203-210), in declared order. -/
def fieldnames : List Str :=
  ["PubmedID", "Title", "Publication Date", "Non-academic Author(s)",
   "Company Affiliation(s)", "Corresponding Author Email"].map String.toList

/-- The values of one data row, in `fieldnames` order
(src/paper_processor.py:219-226). -/
def paperRow (paper : Paper) : List Str :=
  [paper.pubmedID, paper.title, paper.publicationDate,
   paper.non_academic_authors, paper.company_affiliations,
   paper.corresponding_email]

/-- The CSV records `generate_csv` writes for a given paper list:
the header row followed by one row per paper, in list order. -/
def csvRecords (processed_papers : List Paper) : List (List Str) :=
  fieldnames :: processed_papers.map paperRow

/-- Embedding of `PaperProcessor.generate_csv` (src/paper_processor.py:189-228):
the sentinel string on an empty list, otherwise the rendered header row
followed by one rendered row per paper. -/
def generate_csv (processed_papers : List Paper) : Str :=
  if processed_papers.isEmpty then
    "No papers with non-academic affiliations found.".toList
  else
    (List.map csvRow (csvRecords processed_papers)).flatten

/-! ## Spec-side definitions and concrete fixtures -/

/-- The company-label derivation as the spec words it (§4.1 step 6):
the trimmed substring before the first comma when the string has a
comma and that candidate's trimmed length is strictly between 3 and 50;
otherwise the first 50 characters of the original string, trimmed.
Spec-side definition for the refinement claim C4, to be compared with
`extract_company_name`. -/
def company_label_spec (affiliation : Str) : Str :=
  let candidate := stripStr (beforeFirstComma affiliation)
  if affiliation.contains ',' = true
      ∧ 3 < candidate.length ∧ candidate.length < 50 then
    candidate
  else
    stripStr (affiliation.take 50)

/-- Spec-side predicate: the guard of the aggregation loop
(src/paper_processor.py:110) holds for this affiliation entry — the
classifier says corporate and the extracted company name is a
non-empty string. -/
def qualifiesAff (affiliation_info : AffiliationInfo) : Bool :=
  let verdict :=
    is_non_academic_affiliation (affiliation_info.affiliation.getD [])
  verdict.1 && !(verdict.2.getD []).isEmpty

/-- Spec-side predicate: the affiliation entry classifies as
corporate. -/
def corporateAff (affiliation_info : AffiliationInfo) : Bool :=
  (is_non_academic_affiliation (affiliation_info.affiliation.getD [])).1

/-- Spec-side predicate: some affiliation of the author passes the
aggregation guard. -/
def qualifiesAuthor (author : Author) : Bool :=
  match author.affiliationInfo with
  | none => false
  | some affs => affs.any qualifiesAff

/-- Spec-side predicate of claim C1: at least one author's at least one
affiliation string classifies as corporate. -/
def hasCorporateAffiliation_spec (paper_data : PaperRecord) : Bool :=
  match paper_data.article with
  | none => false
  | some article_data =>
    match article_data.authorList with
    | none => false
    | some authors =>
      authors.any (fun author =>
        match author.affiliationInfo with
        | none => false
        | some affs => affs.any corporateAff)

/-- Spec-side predicate of the amended claim C1: at least one author's
at least one affiliation classifies as corporate with a non-empty
extracted company label. -/
def hasQualifyingAffiliation_spec (paper_data : PaperRecord) : Bool :=
  match paper_data.article with
  | none => false
  | some article_data =>
    match article_data.authorList with
    | none => false
    | some authors => authors.any qualifiesAuthor

/-- Trimmed-ness test: neither the first nor the last character is
whitespace. -/
def noEdgeWhitespace (s : Str) : Bool :=
  (match s.head? with
   | some c => !c.isWhitespace
   | none => true)
  && (match s.getLast? with
   | some c => !c.isWhitespace
   | none => true)

/-- The contribution of one identifier to `process_papers`: nothing on
a failed fetch or a non-qualifying record, the single processed paper
otherwise. -/
def processOne (emailOf : PaperRecord → Option Str)
    (fetch : Str → Option PaperRecord) (pmid : Str) : List Paper :=
  match fetch pmid with
  | none => []
  | some paper_data =>
    match process_single_paper emailOf pmid paper_data with
    | some processed_paper =>
      if processed_paper.non_academic_authors ≠ [] then [processed_paper]
      else []
    | none => []

/-- An affiliation that classifies as corporate (it contains the
corporate keyword "inc" and no academic keyword) yet whose extracted
company label is empty: its first 50 characters are all spaces. -/
def c1Affiliation : Str := List.replicate 60 ' ' ++ "inc".toList

/-- A record whose only affiliation is `c1Affiliation`. -/
def c1Record : PaperRecord :=
  ⟨some ⟨none, none,
    some [⟨some "Doe".toList, none, none, none,
      some [⟨some c1Affiliation⟩]⟩]⟩⟩

/-- An affiliation made corporate by the comma fallback (no keyword of
either list, a comma) whose extracted label is empty: 50 spaces before
the comma. -/
def c9Affiliation : Str := List.replicate 50 ' ' ++ [',']

/-- A record whose only affiliation is `c9Affiliation`. -/
def c9Record : PaperRecord :=
  ⟨some ⟨none, none,
    some [⟨some "Roe".toList, none, none, none,
      some [⟨some c9Affiliation⟩]⟩]⟩⟩

/-- The spec's end-to-end example record: title "Test Paper 1", year
"2023", one author Smith/John affiliated to
"Pfizer Inc., New York, NY, USA". -/
def pfizerRecord : PaperRecord :=
  ⟨some ⟨some "Test Paper 1".toList,
    some ⟨some ⟨some ⟨some "2023".toList, none, none, none⟩⟩⟩,
    some [⟨some "Smith".toList, some "John".toList, none, none,
      some [⟨some "Pfizer Inc., New York, NY, USA".toList⟩]⟩]⟩⟩

/-- A record whose only author is affiliated to
"Harvard University, Boston, MA, USA" (academic). -/
def harvardRecord : PaperRecord :=
  ⟨some ⟨none, none,
    some [⟨some "Lee".toList, none, none, none,
      some [⟨some "Harvard University, Boston, MA, USA".toList⟩]⟩]⟩⟩

/-- The summary `_process_single_paper` produces for `pfizerRecord`
under identifier "1". -/
def c7Paper : Paper :=
  ⟨"1".toList, "Test Paper 1".toList, "2023".toList,
   "Smith John".toList, "Pfizer Inc.".toList, "Not available".toList⟩

/-- The summary `_process_single_paper` produces for `pfizerRecord`
under identifier "2". -/
def c8Paper : Paper :=
  ⟨"2".toList, "Test Paper 1".toList, "2023".toList,
   "Smith John".toList, "Pfizer Inc.".toList, "Not available".toList⟩

/-- A fetch collaborator that fails (returns the empty record) on every
identifier except "2", where it returns `pfizerRecord`. -/
def c8Fetch (pmid : Str) : Option PaperRecord :=
  if pmid = "2".toList then some pfizerRecord else none

/-- An article carrying the full Year/Month/Day publication date
2023-Jan-15. -/
def c6Article : Article :=
  ⟨none, some ⟨some ⟨some
    ⟨some "2023".toList, some "Jan".toList, some "15".toList, none⟩⟩⟩,
   none⟩

/-! ## Helper lemmas on the corporate-keyword loop -/

/-- When the lowered affiliation contains an academic keyword, every
iteration of the corporate-keyword loop fails its inner guard, so the
loop falls through. -/
lemma companyKeywordLoop_eq_none_of_academic (affiliation al : Str)
    (kws : List Str)
    (hacad : academic_keywords.any (fun kw => containsSub al kw) = true) :
    companyKeywordLoop affiliation al kws = none := by
  induction kws with
  | nil => rfl
  | cons k rest ih =>
    by_cases h : containsSub al k = true
    · simp [companyKeywordLoop, h, hacad, ih]
    · simp [companyKeywordLoop, h, ih]

/-- When no scanned corporate keyword occurs in the lowered affiliation,
the loop falls through. -/
lemma companyKeywordLoop_eq_none_of_no_corp (affiliation al : Str)
    (kws : List Str)
    (hcorp : kws.any (fun kw => containsSub al kw) = false) :
    companyKeywordLoop affiliation al kws = none := by
  induction kws with
  | nil => rfl
  | cons k rest ih =>
    simp only [List.any_cons, Bool.or_eq_false_iff] at hcorp
    simp [companyKeywordLoop, hcorp.1, ih hcorp.2]

/-- When some scanned corporate keyword occurs and no academic keyword
does, the loop returns the corporate verdict with the extracted
company name. -/
lemma companyKeywordLoop_eq_some_of_corp (affiliation al : Str)
    (kws : List Str)
    (hacad : academic_keywords.any (fun kw => containsSub al kw) = false)
    (hcorp : kws.any (fun kw => containsSub al kw) = true) :
    companyKeywordLoop affiliation al kws
      = some (true, some (extract_company_name affiliation)) := by
  induction kws with
  | nil => simp at hcorp
  | cons k rest ih =>
    by_cases h : containsSub al k = true
    · simp [companyKeywordLoop, h, hacad]
    · simp only [List.any_cons, h, Bool.false_or] at hcorp
      simp [companyKeywordLoop, h, ih hcorp]

/-- Whatever the loop returns, it is the corporate verdict paired with
the extracted company name. -/
lemma companyKeywordLoop_result (affiliation al : Str) (kws : List Str)
    (r : Bool × Option Str)
    (h : companyKeywordLoop affiliation al kws = some r) :
    r = (true, some (extract_company_name affiliation)) := by
  induction kws with
  | nil => simp [companyKeywordLoop] at h
  | cons k rest ih =>
    by_cases hk : containsSub al k = true
    · by_cases hacad :
        academic_keywords.any (fun kw => containsSub al kw) = true
      · simp only [companyKeywordLoop, hk, if_true, hacad,
          Bool.not_true, Bool.false_eq_true, if_false] at h
        exact ih h
      · simp only [Bool.not_eq_true] at hacad
        simp only [companyKeywordLoop, hk, if_true, hacad,
          Bool.not_false, if_true, Option.some.injEq] at h
        exact h.symm
    · simp only [companyKeywordLoop, hk] at h
      simp only [Bool.false_eq_true, if_false] at h
      exact ih h

/-! ## C2 -/

/-- C2: an affiliation whose lower-cased form contains at least one
corporate keyword and no academic keyword classifies as corporate. -/
theorem spec_C2_corporate_keyword_classifies (affiliation : Str)
    (hcorp : company_keywords.any
      (fun kw => containsSub (lowerStr affiliation) kw) = true)
    (hacad : academic_keywords.any
      (fun kw => containsSub (lowerStr affiliation) kw) = false) :
    (is_non_academic_affiliation affiliation).1 = true := by
  simp only [is_non_academic_affiliation]
  rw [companyKeywordLoop_eq_some_of_corp _ _ _ hacad hcorp]

/-- Witness for C2 at the affiliation "Acme Pharma": the corporate
keyword "pharma" occurs, no academic keyword occurs, and the
classification is corporate. -/
theorem spec_C2_witness :
    company_keywords.any
      (fun kw => containsSub (lowerStr "Acme Pharma".toList) kw) = true
    ∧ academic_keywords.any
      (fun kw => containsSub (lowerStr "Acme Pharma".toList) kw) = false
    ∧ (is_non_academic_affiliation "Acme Pharma".toList).1 = true :=
  ⟨by decide, by decide,
    spec_C2_corporate_keyword_classifies "Acme Pharma".toList
      (by decide) (by decide)⟩

/-! ## C3 -/

/-- C3: an affiliation whose lower-cased form contains any academic
keyword classifies as not corporate, even when corporate keywords are
also present. -/
theorem spec_C3_academic_keyword_blocks (affiliation : Str)
    (hacad : academic_keywords.any
      (fun kw => containsSub (lowerStr affiliation) kw) = true) :
    (is_non_academic_affiliation affiliation).1 = false := by
  simp only [is_non_academic_affiliation]
  rw [companyKeywordLoop_eq_none_of_academic _ _ _ hacad]
  simp [hacad]

/-- Witness for C3 at "Pfizer Inc. University Hospital": the corporate
keyword "inc" is present, yet the academic keywords force a
not-corporate verdict. -/
theorem spec_C3_witness :
    academic_keywords.any
      (fun kw => containsSub
        (lowerStr "Pfizer Inc. University Hospital".toList) kw) = true
    ∧ company_keywords.any
      (fun kw => containsSub
        (lowerStr "Pfizer Inc. University Hospital".toList) kw) = true
    ∧ (is_non_academic_affiliation
        "Pfizer Inc. University Hospital".toList).1 = false :=
  ⟨by decide, by decide,
    spec_C3_academic_keyword_blocks
      "Pfizer Inc. University Hospital".toList (by decide)⟩

/-! ## C5 -/

/-- C5: when Pass A (the corporate-keyword loop) does not classify the
affiliation as corporate, an affiliation with no academic keyword and a
comma is corporate (the comma fallback), while one with no academic
keyword, no corporate keyword and no comma is not corporate. -/
theorem spec_C5_comma_fallback (affiliation : Str)
    (hacad : academic_keywords.any
      (fun kw => containsSub (lowerStr affiliation) kw) = false) :
    (companyKeywordLoop affiliation (lowerStr affiliation) company_keywords
        = none →
      affiliation.contains ',' = true →
      (is_non_academic_affiliation affiliation).1 = true)
    ∧ (company_keywords.any
        (fun kw => containsSub (lowerStr affiliation) kw) = false →
      affiliation.contains ',' = false →
      (is_non_academic_affiliation affiliation).1 = false) := by
  constructor
  · intro hA hcomma
    simp only [is_non_academic_affiliation]
    rw [hA]
    simp at hcomma
    simp [hacad, hcomma]
  · intro hcorp hcomma
    simp only [is_non_academic_affiliation]
    rw [companyKeywordLoop_eq_none_of_no_corp _ _ _ hcorp]
    simp at hcomma
    simp [hacad, hcomma]

/-- Witness for C5: "Moderna Vaccines, Cambridge" (no keyword of either
list, a comma) is corporate by the fallback; "Moderna Vaccines" (no
keyword, no comma) is not corporate. -/
theorem spec_C5_witness :
    (is_non_academic_affiliation "Moderna Vaccines, Cambridge".toList).1
        = true
    ∧ (is_non_academic_affiliation "Moderna Vaccines".toList).1 = false :=
  ⟨(spec_C5_comma_fallback "Moderna Vaccines, Cambridge".toList
      (by decide)).1 (by decide) (by decide),
   (spec_C5_comma_fallback "Moderna Vaccines".toList
      (by decide)).2 (by decide) (by decide)⟩

/-! ## C4 -/

/-- C4: the code's company-label extraction agrees with the spec's
description everywhere; whenever the classifier says corporate, the
label it returns is exactly `extract_company_name`; and on
"Pfizer Inc., New York, NY, USA" the verdict is corporate with label
"Pfizer Inc.". -/
theorem spec_C4_company_label :
    (∀ affiliation : Str,
      extract_company_name affiliation = company_label_spec affiliation)
    ∧ (∀ affiliation : Str,
      (is_non_academic_affiliation affiliation).1 = true →
      (is_non_academic_affiliation affiliation).2
        = some (extract_company_name affiliation))
    ∧ is_non_academic_affiliation "Pfizer Inc., New York, NY, USA".toList
        = (true, some "Pfizer Inc.".toList) := by
  refine ⟨?_, ?_, by decide⟩
  · intro affiliation
    simp only [extract_company_name, company_label_spec]
    by_cases hc : ',' ∈ affiliation
    · by_cases hlen : 3 < (stripStr (beforeFirstComma affiliation)).length
          ∧ (stripStr (beforeFirstComma affiliation)).length < 50
      · simp [hc, hlen]
      · simp [hc, hlen]
    · simp [hc]
  · intro affiliation h
    simp only [is_non_academic_affiliation] at h ⊢
    cases heq : companyKeywordLoop affiliation (lowerStr affiliation)
        company_keywords with
    | some r =>
      have hr := companyKeywordLoop_result _ _ _ _ heq
      subst hr
      rfl
    | none =>
      rw [heq] at h
      by_cases hacad : academic_keywords.any
          (fun kw => containsSub (lowerStr affiliation) kw) = true
      · simp [hacad] at h
      · simp only [Bool.not_eq_true] at hacad
        by_cases hcomma : ',' ∈ affiliation
        · simp [hacad, hcomma]
        · simp [hacad, hcomma] at h

/-- Witness for C4, discharging the corporate hypothesis at the Pfizer
affiliation. -/
theorem spec_C4_witness :
    (is_non_academic_affiliation
      "Pfizer Inc., New York, NY, USA".toList).1 = true
    ∧ (is_non_academic_affiliation
        "Pfizer Inc., New York, NY, USA".toList).2
      = some (extract_company_name "Pfizer Inc., New York, NY, USA".toList) :=
  ⟨by decide,
    spec_C4_company_label.2.1 "Pfizer Inc., New York, NY, USA".toList
      (by decide)⟩

/-! ## Helper lemmas on trimming -/

/-- The head of `dropWhile p` does not satisfy `p`. -/
lemma head?_dropWhile_not (p : Char → Bool) (l : Str) (c : Char)
    (h : (l.dropWhile p).head? = some c) : p c = false := by
  induction l with
  | nil => simp [List.dropWhile] at h
  | cons a t ih =>
    rw [List.dropWhile_cons] at h
    split at h
    · exact ih h
    · simp only [List.head?_cons, Option.some.injEq] at h
      subst h
      next hcond => simpa using hcond

/-- A non-empty suffix has the same last element as the whole list. -/
lemma getLast?_of_suffix {l₁ l₂ : Str} (h : l₁ <:+ l₂) (hne : l₁ ≠ []) :
    l₂.getLast? = l₁.getLast? := by
  obtain ⟨t, rfl⟩ := h
  exact List.getLast?_append_of_ne_nil t hne

/-- The first character of a stripped string is not whitespace. -/
lemma stripStr_head_not_ws (s : Str) (c : Char)
    (h : (stripStr s).head? = some c) : c.isWhitespace = false := by
  unfold stripStr at h
  rw [List.head?_reverse] at h
  have hne :
      (s.dropWhile Char.isWhitespace).reverse.dropWhile Char.isWhitespace
        ≠ [] := by
    intro hnil
    rw [hnil] at h
    simp at h
  have hsuff :
      (s.dropWhile Char.isWhitespace).reverse.dropWhile Char.isWhitespace
        <:+ (s.dropWhile Char.isWhitespace).reverse :=
    List.dropWhile_suffix Char.isWhitespace
  have h2 : (s.dropWhile Char.isWhitespace).reverse.getLast? = some c := by
    rw [getLast?_of_suffix hsuff hne]
    exact h
  rw [List.getLast?_reverse] at h2
  exact head?_dropWhile_not _ _ _ h2

/-- The last character of a stripped string is not whitespace. -/
lemma stripStr_getLast_not_ws (s : Str) (c : Char)
    (h : (stripStr s).getLast? = some c) : c.isWhitespace = false := by
  unfold stripStr at h
  rw [List.getLast?_reverse] at h
  exact head?_dropWhile_not _ _ _ h

/-- Stripping never lengthens a string. -/
lemma stripStr_length_le (s : Str) : (stripStr s).length ≤ s.length := by
  unfold stripStr
  calc ((s.dropWhile Char.isWhitespace).reverse.dropWhile
          Char.isWhitespace).reverse.length
      = ((s.dropWhile Char.isWhitespace).reverse.dropWhile
          Char.isWhitespace).length := List.length_reverse _
    _ ≤ (s.dropWhile Char.isWhitespace).reverse.length :=
        (List.dropWhile_sublist _).length_le
    _ = (s.dropWhile Char.isWhitespace).length := List.length_reverse _
    _ ≤ s.length := (List.dropWhile_sublist _).length_le

/-- A stripped string has no whitespace at either edge. -/
lemma noEdgeWhitespace_stripStr (s : Str) :
    noEdgeWhitespace (stripStr s) = true := by
  unfold noEdgeWhitespace
  rw [Bool.and_eq_true]
  constructor
  · cases hh : (stripStr s).head? with
    | none => rfl
    | some c => simp [stripStr_head_not_ws s c hh]
  · cases hh : (stripStr s).getLast? with
    | none => rfl
    | some c => simp [stripStr_getLast_not_ws s c hh]

/-! ## C10 -/

/-- C10: every company label returned by `_extract_company_name` has
length at most 50 and carries no leading or trailing whitespace, for
every input affiliation string. -/
theorem spec_C10_label_bounded_trimmed (affiliation : Str) :
    (extract_company_name affiliation).length ≤ 50
    ∧ noEdgeWhitespace (extract_company_name affiliation) = true := by
  simp only [extract_company_name]
  split
  · split
    · next hlen =>
      exact ⟨le_of_lt hlen.2, noEdgeWhitespace_stripStr _⟩
    · exact ⟨le_trans (stripStr_length_le _) (affiliation.length_take_le 50),
        noEdgeWhitespace_stripStr _⟩
  · exact ⟨le_trans (stripStr_length_le _) (affiliation.length_take_le 50),
      noEdgeWhitespace_stripStr _⟩

/-! ## C6 -/

/-- C6: the extracted publication date follows the fixed precedence —
Year+Month+Day, else Year+Month, else Year, else the first
whitespace-delimited token of a present `MedlineDate` (an
all-whitespace `MedlineDate`, whose token split fails, yields
"Unknown" via the local handler), else "Unknown"; a record with no
date path at all also yields "Unknown". -/
theorem spec_C6_publication_date_precedence :
    (∀ article_data : Article,
      (article_data.journal.bind Journal.journalIssue).bind
          JournalIssue.pubDate = none →
      extract_publication_date article_data = "Unknown".toList)
    ∧ (∀ (article_data : Article) (pd : PubDate),
      (article_data.journal.bind Journal.journalIssue).bind
          JournalIssue.pubDate = some pd →
      (∀ y m d, pd.year = some y → pd.month = some m → pd.day = some d →
        extract_publication_date article_data
          = y ++ ['-'] ++ m ++ ['-'] ++ d)
      ∧ (∀ y m, pd.year = some y → pd.month = some m → pd.day = none →
        extract_publication_date article_data = y ++ ['-'] ++ m)
      ∧ (∀ y, pd.year = some y → pd.month = none →
        extract_publication_date article_data = y)
      ∧ (∀ ml, pd.year = none → pd.medlineDate = some ml →
        extract_publication_date article_data
          = (firstToken ml).getD "Unknown".toList)
      ∧ (pd.year = none → pd.medlineDate = none →
        extract_publication_date article_data = "Unknown".toList)) := by
  constructor
  · intro article_data h
    unfold extract_publication_date
    rw [h]
  · intro article_data pd h
    refine ⟨?_, ?_, ?_, ?_, ?_⟩
    · intro y m d hy hm hd
      simp only [extract_publication_date, h, hy, hm, hd]
    · intro y m hy hm hd
      simp only [extract_publication_date, h, hy, hm, hd]
    · intro y hy hm
      simp only [extract_publication_date, h, hy, hm]
    · intro ml hy hml
      simp only [extract_publication_date, h, hy, hml]
      cases firstToken ml <;> rfl
    · intro hy hml
      simp only [extract_publication_date, h, hy, hml]

/-- Witness for C6, applying the Year+Month+Day case at a concrete
article with publication date 2023-Jan-15. -/
theorem spec_C6_witness :
    extract_publication_date c6Article
      = "2023".toList ++ ['-'] ++ "Jan".toList ++ ['-'] ++ "15".toList :=
  (spec_C6_publication_date_precedence.2 c6Article
      ⟨some "2023".toList, some "Jan".toList, some "15".toList, none⟩
      rfl).1
    "2023".toList "Jan".toList "15".toList rfl rfl rfl

/-! ## Helper lemmas on the aggregation loops -/

/-- The aggregation guard of src/paper_processor.py:110, as a
proposition. -/
lemma qualifiesAff_iff (affiliation_info : AffiliationInfo) :
    qualifiesAff affiliation_info = true ↔
      ((is_non_academic_affiliation
          (affiliation_info.affiliation.getD [])).1 = true
       ∧ (is_non_academic_affiliation
          (affiliation_info.affiliation.getD [])).2.getD [] ≠ []) := by
  simp [qualifiesAff]

/-- The author-name list accumulated by the affiliation loop is empty
exactly when it started empty and no scanned affiliation passes the
guard. -/
lemma processAffiliations_fst_isEmpty (author_name : Str)
    (affs : List AffiliationInfo) :
    ∀ acc : List Str × List Str,
    (processAffiliations author_name affs acc).1.isEmpty
      = (acc.1.isEmpty && !affs.any qualifiesAff) := by
  induction affs with
  | nil =>
    intro acc
    simp [processAffiliations]
  | cons ai rest ih =>
    intro acc
    simp only [processAffiliations, List.foldl_cons] at ih ⊢
    by_cases hq : (is_non_academic_affiliation (ai.affiliation.getD [])).1
          = true
        ∧ (is_non_academic_affiliation
          (ai.affiliation.getD [])).2.getD [] ≠ []
    · rw [if_pos hq, ih]
      have hqb : qualifiesAff ai = true := (qualifiesAff_iff ai).mpr hq
      simp [hqb]
    · rw [if_neg hq, ih]
      have hqb : qualifiesAff ai = false := by
        rw [← Bool.not_eq_true]
        exact fun hh => hq ((qualifiesAff_iff ai).mp hh)
      simp [hqb]

/-- The affiliation loop only ever appends non-empty company names. -/
lemma processAffiliations_snd_nonempty (author_name : Str)
    (affs : List AffiliationInfo) :
    ∀ acc : List Str × List Str, (∀ c ∈ acc.2, c ≠ []) →
    ∀ c ∈ (processAffiliations author_name affs acc).2, c ≠ [] := by
  induction affs with
  | nil =>
    intro acc hacc
    simpa [processAffiliations] using hacc
  | cons ai rest ih =>
    intro acc hacc
    simp only [processAffiliations, List.foldl_cons] at ih ⊢
    by_cases hq : (is_non_academic_affiliation (ai.affiliation.getD [])).1
          = true
        ∧ (is_non_academic_affiliation
          (ai.affiliation.getD [])).2.getD [] ≠ []
    · rw [if_pos hq]
      apply ih
      intro c hc
      by_cases hm : acc.2.contains
          ((is_non_academic_affiliation (ai.affiliation.getD [])).2.getD [])
      · rw [if_pos hm] at hc
        exact hacc c hc
      · rw [if_neg hm] at hc
        rcases List.mem_append.mp hc with hc₁ | hc₂
        · exact hacc c hc₁
        · rw [List.mem_singleton.mp hc₂]
          exact hq.2
    · rw [if_neg hq]
      exact ih acc hacc

/-- The author-name list accumulated by the author loop is empty exactly
when it started empty and no author qualifies. -/
lemma processAuthorsLoop_fst_isEmpty (authors : List Author) :
    ∀ acc : List Str × List Str,
    (processAuthorsLoop authors acc).1.isEmpty
      = (acc.1.isEmpty && !authors.any qualifiesAuthor) := by
  induction authors with
  | nil =>
    intro acc
    simp [processAuthorsLoop]
  | cons author rest ih =>
    intro acc
    simp only [processAuthorsLoop, List.foldl_cons] at ih ⊢
    cases haff : author.affiliationInfo with
    | none =>
      rw [ih]
      simp [qualifiesAuthor, haff]
    | some affs =>
      rw [ih, processAffiliations_fst_isEmpty]
      simp [qualifiesAuthor, haff, Bool.and_assoc]

/-- The author loop only ever appends non-empty company names. -/
lemma processAuthorsLoop_snd_nonempty (authors : List Author) :
    ∀ acc : List Str × List Str, (∀ c ∈ acc.2, c ≠ []) →
    ∀ c ∈ (processAuthorsLoop authors acc).2, c ≠ [] := by
  induction authors with
  | nil =>
    intro acc hacc
    simpa [processAuthorsLoop] using hacc
  | cons author rest ih =>
    intro acc hacc
    simp only [processAuthorsLoop, List.foldl_cons] at ih ⊢
    cases haff : author.affiliationInfo with
    | none => exact ih acc hacc
    | some affs =>
      exact ih _ (processAffiliations_snd_nonempty _ affs acc hacc)

/-- An affiliation passing the aggregation guard classifies as
corporate. -/
lemma corporateAff_of_qualifiesAff (affiliation_info : AffiliationInfo)
    (h : qualifiesAff affiliation_info = true) :
    corporateAff affiliation_info = true :=
  ((qualifiesAff_iff affiliation_info).mp h).1

/-- A record with a guard-passing affiliation has a corporate
affiliation. -/
lemma hasCorporate_of_hasQualifying (paper_data : PaperRecord)
    (h : hasQualifyingAffiliation_spec paper_data = true) :
    hasCorporateAffiliation_spec paper_data = true := by
  obtain ⟨art⟩ := paper_data
  cases art with
  | none => exact absurd h (by simp [hasQualifyingAffiliation_spec])
  | some article_data =>
    obtain ⟨title, journal, authorList⟩ := article_data
    cases authorList with
    | none => exact absurd h (by simp [hasQualifyingAffiliation_spec])
    | some authors =>
      have h' : authors.any qualifiesAuthor = true := h
      show (authors.any fun author =>
        match author.affiliationInfo with
        | none => false
        | some affs => affs.any corporateAff) = true
      rw [List.any_eq_true] at h' ⊢
      obtain ⟨author, hmem, hqa⟩ := h'
      refine ⟨author, hmem, ?_⟩
      obtain ⟨ln, fn, ini, cn, affInfo⟩ := author
      cases affInfo with
      | none => exact absurd hqa (by simp [qualifiesAuthor])
      | some affs =>
        have hqa' : affs.any qualifiesAff = true := hqa
        show affs.any corporateAff = true
        rw [List.any_eq_true] at hqa' ⊢
        obtain ⟨ai, haimem, hai⟩ := hqa'
        exact ⟨ai, haimem, corporateAff_of_qualifiesAff ai hai⟩

/-! ## C1 -/

/-- C1 counterexample: `c1Affiliation` classifies as corporate, so
`c1Record` has a corporate affiliation, yet `_process_single_paper`
returns `none` on it (the extracted company label is the empty string),
refuting the claimed equivalence at this concrete input. -/
theorem spec_C1_counterexample :
    hasCorporateAffiliation_spec c1Record = true
    ∧ process_single_paper (fun _ => none) "12345".toList c1Record = none
    ∧ ¬((process_single_paper (fun _ => none) "12345".toList
          c1Record).isSome = true
        ↔ hasCorporateAffiliation_spec c1Record = true) := by
  refine ⟨by decide, by decide, ?_⟩
  intro hiff
  have := hiff.mpr (by decide)
  rw [show (process_single_paper (fun _ => none) "12345".toList
      c1Record).isSome = false by decide] at this
  exact absurd this (by decide)

/-- C1 amended: `_process_single_paper` produces a summary exactly when
at least one author's at least one affiliation classifies as corporate
with a non-empty extracted company label; in particular a record none
of whose affiliations classifies as corporate (e.g. all academic)
yields `none`. -/
theorem spec_C1_amended_summary_iff_qualifying :
    (∀ (emailOf : PaperRecord → Option Str) (pmid : Str)
        (paper_data : PaperRecord),
      (process_single_paper emailOf pmid paper_data).isSome
        = hasQualifyingAffiliation_spec paper_data)
    ∧ (∀ (emailOf : PaperRecord → Option Str) (pmid : Str)
        (paper_data : PaperRecord),
      hasCorporateAffiliation_spec paper_data = false →
      process_single_paper emailOf pmid paper_data = none) := by
  have hmain : ∀ (emailOf : PaperRecord → Option Str) (pmid : Str)
      (paper_data : PaperRecord),
      (process_single_paper emailOf pmid paper_data).isSome
        = hasQualifyingAffiliation_spec paper_data := by
    intro emailOf pmid paper_data
    obtain ⟨art⟩ := paper_data
    cases art with
    | none => rfl
    | some article_data =>
      obtain ⟨title, journal, authorList⟩ := article_data
      cases authorList with
      | none => rfl
      | some authors =>
        have hfst := processAuthorsLoop_fst_isEmpty authors ([], [])
        simp only [List.isEmpty_nil, Bool.true_and] at hfst
        by_cases hq : authors.any qualifiesAuthor = true
        · rw [hq] at hfst
          simp only [Bool.not_true] at hfst
          have hne : (processAuthors authors).1 ≠ [] := by
            intro hnil
            unfold processAuthors at hnil
            rw [hnil] at hfst
            simp at hfst
          simp [process_single_paper, hasQualifyingAffiliation_spec,
            hne, hq]
        · have hqf : authors.any qualifiesAuthor = false := by
            simpa using hq
          rw [hqf] at hfst
          simp only [Bool.not_false] at hfst
          have hnil : (processAuthors authors).1 = [] := by
            unfold processAuthors
            simpa using hfst
          simp [process_single_paper, hasQualifyingAffiliation_spec,
            hnil, hqf]
  refine ⟨hmain, ?_⟩
  intro emailOf pmid paper_data hcorp
  have hq : hasQualifyingAffiliation_spec paper_data = false := by
    rw [← Bool.not_eq_true]
    intro hqt
    rw [hasCorporate_of_hasQualifying paper_data hqt] at hcorp
    exact absurd hcorp (by simp)
  have := hmain emailOf pmid paper_data
  rw [hq] at this
  exact Option.not_isSome_iff_eq_none.mp (by simp [this])

/-- Witness for the amended C1, discharging the no-corporate-affiliation
hypothesis at the all-academic `harvardRecord`. -/
theorem spec_C1_witness :
    hasCorporateAffiliation_spec harvardRecord = false
    ∧ process_single_paper (fun _ => none) "2".toList harvardRecord
        = none :=
  ⟨by decide,
    spec_C1_amended_summary_iff_qualifying.2 (fun _ => none)
      "2".toList harvardRecord (by decide)⟩

/-! ## C9 -/

/-- An element of the deduplicated list also occurs, beyond the starting
accumulator, in the scanned list. -/
lemma dedupStr_loop_mem (l : List Str) :
    ∀ init : List Str, ∀ c ∈ l.foldl
      (fun acc x => if acc.contains x then acc else acc ++ [x]) init,
      c ∈ init ∨ c ∈ l := by
  induction l with
  | nil =>
    intro init c hc
    exact Or.inl hc
  | cons x rest ih =>
    intro init c hc
    rw [List.foldl_cons] at hc
    rcases ih _ c hc with h | h
    · by_cases hx : init.contains x
      · rw [if_pos hx] at h
        exact Or.inl h
      · rw [if_neg hx] at h
        rcases List.mem_append.mp h with h₁ | h₂
        · exact Or.inl h₁
        · rw [List.mem_singleton.mp h₂]
          exact Or.inr (List.mem_cons_self x rest)
    · exact Or.inr (List.mem_cons_of_mem x h)

/-- Deduplication introduces no new elements. -/
lemma mem_dedupStr (l : List Str) (c : Str) (hc : c ∈ dedupStr l) :
    c ∈ l := by
  unfold dedupStr at hc
  rcases dedupStr_loop_mem l [] c hc with h | h
  · exact absurd h (List.not_mem_nil c)
  · exact h

/-- C9: every company name the aggregation loop records is a non-empty
string, so every produced summary's company list joins only non-empty
labels; an affiliation classified corporate with an empty extracted
label (`c9Affiliation`: 50 spaces before a comma) contributes nothing,
and a record whose only corporate affiliation has an empty label yields
no summary. -/
theorem spec_C9_company_labels_nonempty :
    (∀ authors : List Author, ∀ c ∈ (processAuthors authors).2, c ≠ [])
    ∧ (∀ (emailOf : PaperRecord → Option Str) (pmid : Str)
        (paper_data : PaperRecord) (p : Paper),
        process_single_paper emailOf pmid paper_data = some p →
        ∃ companies : List Str, (∀ c ∈ companies, c ≠ [])
          ∧ p.company_affiliations = joinSemicolon companies)
    ∧ is_non_academic_affiliation c9Affiliation = (true, some [])
    ∧ processAuthors
        [⟨some "Roe".toList, none, none, none,
          some [⟨some c9Affiliation⟩]⟩] = ([], [])
    ∧ process_single_paper (fun _ => none) "67890".toList c9Record
        = none := by
  refine ⟨?_, ?_, by decide, by decide, by decide⟩
  · intro authors
    exact processAuthorsLoop_snd_nonempty authors ([], []) (by simp)
  · intro emailOf pmid paper_data p hp
    simp only [process_single_paper] at hp
    split at hp
    · exact absurd hp (by simp)
    · split at hp
      · have hp' := Option.some.inj hp
        subst hp'
        rename_i article_data harticle hcond
        refine ⟨_, ?_, rfl⟩
        intro c hc
        have hc' := mem_dedupStr _ c hc
        revert hc'
        cases article_data.authorList with
        | none =>
          intro hc'
          exact absurd hc' (List.not_mem_nil c)
        | some authors =>
          intro hc'
          exact processAuthorsLoop_snd_nonempty authors ([], [])
            (by simp) c hc'
      · exact absurd hp (by simp)

/-- Witness for C9, instantiating the non-empty-label invariant at the
company list produced from the Pfizer author, and the summary-level
consequence at the Pfizer fixture. -/
theorem spec_C9_witness :
    ("Pfizer Inc.".toList ∈ (processAuthors
        [⟨some "Smith".toList, some "John".toList, none, none,
          some [⟨some "Pfizer Inc., New York, NY, USA".toList⟩]⟩]).2
      ∧ "Pfizer Inc.".toList ≠ [])
    ∧ ∃ companies : List Str, (∀ c ∈ companies, c ≠ [])
        ∧ c7Paper.company_affiliations = joinSemicolon companies :=
  ⟨⟨by decide,
    spec_C9_company_labels_nonempty.1
      [⟨some "Smith".toList, some "John".toList, none, none,
        some [⟨some "Pfizer Inc., New York, NY, USA".toList⟩]⟩]
      "Pfizer Inc.".toList (by decide)⟩,
   spec_C9_company_labels_nonempty.2.1 (fun _ => none) "1".toList
     pfizerRecord c7Paper (by decide)⟩

/-! ## C7 -/

/-- C7: `generate_csv` on the empty list is exactly the sentinel string;
on a non-empty list it is the rendered header row — with the six fixed
labels in declared order — followed by one rendered row per paper in
list order, so the CSV has `length + 1` records; and every summary
`_process_single_paper` emits joins its multi-value fields with "; " and
renders an absent corresponding email as "Not available". -/
theorem spec_C7_render :
    (generate_csv []
      = "No papers with non-academic affiliations found.".toList)
    ∧ (∀ processed_papers : List Paper, processed_papers ≠ [] →
        generate_csv processed_papers
          = csvRow ["PubmedID".toList, "Title".toList,
              "Publication Date".toList, "Non-academic Author(s)".toList,
              "Company Affiliation(s)".toList,
              "Corresponding Author Email".toList]
            ++ (processed_papers.map (fun p => csvRow (paperRow p))).flatten
        ∧ (csvRecords processed_papers).length
            = processed_papers.length + 1)
    ∧ (∀ (emailOf : PaperRecord → Option Str) (pmid : Str)
        (paper_data : PaperRecord) (p : Paper),
        process_single_paper emailOf pmid paper_data = some p →
        (emailOf paper_data = none →
          p.corresponding_email = "Not available".toList)
        ∧ ∃ names companies,
            p.non_academic_authors = joinSemicolon names
            ∧ p.company_affiliations = joinSemicolon companies) := by
  refine ⟨rfl, ?_, ?_⟩
  · intro processed_papers hne
    constructor
    · unfold generate_csv
      rw [if_neg (by simpa using hne)]
      simp only [csvRecords, List.map_cons, List.flatten_cons,
        List.map_map]
      rfl
    · simp [csvRecords]
  · intro emailOf pmid paper_data p hp
    simp only [process_single_paper] at hp
    split at hp
    · exact absurd hp (by simp)
    · split at hp
      · have hp' := Option.some.inj hp
        subst hp'
        refine ⟨fun hem => ?_, ⟨_, _, rfl, rfl⟩⟩
        simp only [hem]
      · exact absurd hp (by simp)

/-- Witness for C7, applying the non-empty rendering case and the
summary-shape case at the Pfizer fixture. -/
theorem spec_C7_witness :
    (generate_csv [c7Paper]
      = csvRow ["PubmedID".toList, "Title".toList,
          "Publication Date".toList, "Non-academic Author(s)".toList,
          "Company Affiliation(s)".toList,
          "Corresponding Author Email".toList]
        ++ ([c7Paper].map (fun p => csvRow (paperRow p))).flatten
    ∧ (csvRecords [c7Paper]).length = [c7Paper].length + 1)
    ∧ (c7Paper.corresponding_email = "Not available".toList
    ∧ ∃ names companies,
        c7Paper.non_academic_authors = joinSemicolon names
        ∧ c7Paper.company_affiliations = joinSemicolon companies) :=
  ⟨spec_C7_render.2.1 [c7Paper] (by decide),
   ⟨(spec_C7_render.2.2 (fun _ => none) "1".toList pfizerRecord c7Paper
       (by decide)).1 rfl,
    (spec_C7_render.2.2 (fun _ => none) "1".toList pfizerRecord c7Paper
       (by decide)).2⟩⟩

/-! ## C8 -/

/-- One iteration of the `process_papers` loop appends exactly the
identifier's contribution. -/
lemma processOne_step (emailOf : PaperRecord → Option Str)
    (fetch : Str → Option PaperRecord) (pmid : Str) (acc : List Paper) :
    (match fetch pmid with
      | none => acc
      | some paper_data =>
        match process_single_paper emailOf pmid paper_data with
        | some processed_paper =>
          if processed_paper.non_academic_authors ≠ [] then
            acc ++ [processed_paper]
          else acc
        | none => acc)
      = acc ++ processOne emailOf fetch pmid := by
  unfold processOne
  generalize fetch pmid = fetched
  cases fetched with
  | none => simp
  | some paper_data =>
    show (match process_single_paper emailOf pmid paper_data with
        | some processed_paper =>
          if processed_paper.non_academic_authors ≠ [] then
            acc ++ [processed_paper]
          else acc
        | none => acc)
      = acc ++ (match process_single_paper emailOf pmid paper_data with
        | some processed_paper =>
          if processed_paper.non_academic_authors ≠ [] then
            [processed_paper]
          else []
        | none => [])
    generalize process_single_paper emailOf pmid paper_data = processed
    cases processed with
    | none => simp
    | some processed_paper =>
      by_cases hne : processed_paper.non_academic_authors = []
      · simp [hne]
      · simp [hne]

/-- The loop of `process_papers` over an arbitrary accumulator equals
the accumulator followed by the per-identifier contributions, in
identifier order. -/
lemma process_papers_loop (emailOf : PaperRecord → Option Str)
    (fetch : Str → Option PaperRecord) (pmids : List Str) :
    ∀ acc : List Paper,
    pmids.foldl (fun processed_papers pmid =>
      match fetch pmid with
      | none => processed_papers
      | some paper_data =>
        match process_single_paper emailOf pmid paper_data with
        | some processed_paper =>
          if processed_paper.non_academic_authors ≠ [] then
            processed_papers ++ [processed_paper]
          else processed_papers
        | none => processed_papers) acc
      = acc ++ (pmids.map (processOne emailOf fetch)).flatten := by
  induction pmids with
  | nil =>
    intro acc
    simp
  | cons pmid rest ih =>
    intro acc
    rw [List.foldl_cons, ih, List.map_cons, List.flatten_cons,
      ← List.append_assoc]
    congr 1
    exact processOne_step emailOf fetch pmid acc

/-- C8: `process_papers` is the concatenation, in identifier order, of
each identifier's contribution; an identifier whose fetch fails is
skipped without affecting the rest; processing distributes over list
concatenation (so earlier failures never block later identifiers); and
concretely, with the first of two fetches failing and the second
yielding a qualifying record, the result is exactly the second's
summary. -/
theorem spec_C8_skip_and_order (emailOf : PaperRecord → Option Str)
    (fetch : Str → Option PaperRecord) :
    (∀ pmids, process_papers emailOf fetch pmids
        = (pmids.map (processOne emailOf fetch)).flatten)
    ∧ (∀ pmid pmids, fetch pmid = none →
        process_papers emailOf fetch (pmid :: pmids)
          = process_papers emailOf fetch pmids)
    ∧ (∀ l₁ l₂, process_papers emailOf fetch (l₁ ++ l₂)
        = process_papers emailOf fetch l₁
          ++ process_papers emailOf fetch l₂)
    ∧ (∀ pmid₁ pmid₂ paper_data summary, fetch pmid₁ = none →
        fetch pmid₂ = some paper_data →
        process_single_paper emailOf pmid₂ paper_data = some summary →
        summary.non_academic_authors ≠ [] →
        process_papers emailOf fetch [pmid₁, pmid₂] = [summary]) := by
  have hchar : ∀ pmids, process_papers emailOf fetch pmids
      = (pmids.map (processOne emailOf fetch)).flatten := by
    intro pmids
    unfold process_papers
    rw [process_papers_loop]
    simp
  refine ⟨hchar, ?_, ?_, ?_⟩
  · intro pmid pmids hfail
    rw [hchar, hchar, List.map_cons, List.flatten_cons]
    unfold processOne
    rw [hfail]
    simp
  · intro l₁ l₂
    rw [hchar, hchar, hchar, List.map_append, List.flatten_append]
  · intro pmid₁ pmid₂ paper_data summary hfail hfetch hproc hne
    rw [hchar]
    simp only [List.map_cons, List.map_nil, List.flatten_cons,
      List.flatten_nil]
    unfold processOne
    rw [hfail, hfetch]
    simp [hproc, hne]

/-- Witness for C8: the fetch collaborator `c8Fetch` fails on "1" and
yields the Pfizer record on "2"; the pipeline run over ["1", "2"]
returns exactly the summary of "2". -/
theorem spec_C8_witness :
    process_papers (fun _ => none) c8Fetch ["1".toList, "2".toList]
      = [c8Paper] :=
  (spec_C8_skip_and_order (fun _ => none) c8Fetch).2.2.2
    "1".toList "2".toList pfizerRecord c8Paper
    (by decide) (by decide) (by decide) (by decide)

end PubMedFetcher
